import Mathlib

set_option autoImplicit false

/-!
Verification of the jkl static-site generator against its specification.

Shallow embedding of the program's two source files (`main.go`, which holds
both the CLI/watch code and the `Site` logic, and `config.go`).  Pure string
manipulation is translated directly; the file system is modelled explicitly
(source tree as the list of entries `filepath.Walk` visits in lexicographic
order, destination tree as a root-existence flag plus a flat list of files);
stateful methods become functions threading that state; fallible code returns
an explicit outcome type, with a distinguished constructor for a Go runtime
panic (nil-pointer dereference).

Helpers of this repository that are referenced by the provided sources but not
contained in them (`ParsePost`, `ParsePage`, `isPost`, `isPage`, `isMarkdown`,
`isTemplate`, `isHiddenOrTemp`, `isStatic`, `appendExt`, `copyTo`,
`Config.GetStrings`, the permalink resolver) are modelled from the
specification; each such definition carries a doc comment saying so.
External collaborators (the `text/template` engine, `gorilla/feeds`
serialization, the S3 client, OS copy primitives) are modelled by their
contracts, as the specification prescribes.
-/

/-! ## String and path helpers

Character-list based equivalents of the Go string primitives the sources use.
They are structurally recursive (rather than the byte-position loops of the
standard library) so that every concrete instance below evaluates inside the
kernel; on valid UTF-8 they agree with the originals. -/

/-- Models Go `strings.HasPrefix s pre`: `pre` is a character prefix of `s`
(for valid UTF-8, character-prefix and byte-prefix coincide). -/
def hasPrefixS (s pre : String) : Bool := pre.data.isPrefixOf s.data

/-- Models Go `strings.HasSuffix s suf`. -/
def endsWithS (s suf : String) : Bool := suf.data.isSuffixOf s.data

/-- Split a character list on a separator character. -/
def splitChar (sep : Char) : List Char → List (List Char)
  | [] => [[]]
  | c :: cs =>
    match splitChar sep cs with
    | [] => if c = sep then [[], []] else [[c]]
    | g :: gs => if c = sep then [] :: g :: gs else (c :: g) :: gs

/-- Models `strings.Split` on a one-character separator (`"".split = [""]`). -/
def splitOnS (s : String) (sep : Char) : List String :=
  (splitChar sep s.data).map String.mk

/-- Decimal parse of a digits-only, non-empty string (`strconv.Atoi`). -/
def toNatS (s : String) : Option Nat :=
  if s.data.isEmpty then none
  else if s.data.all (fun c => c.isDigit) then
    some (s.data.foldl (fun n c => n * 10 + (c.toNat - 48)) 0)
  else none

/-- Drop the last `n` characters of a string. -/
def dropRightS (s : String) (n : Nat) : String :=
  String.mk (s.data.take (s.data.length - n))

/-- Models `strings.Join` / `String.intercalate`. -/
def intercalateS (sep : String) : List String → String
  | [] => ""
  | [x] => x
  | x :: xs => x ++ sep ++ intercalateS sep xs

/-- Last component of a slash-separated relative path (`filepath.Base`). -/
def basename (p : String) : String := (splitOnS p '/').getLastD ""

/-- Slash-joined relative path of a non-empty component list: the string
`filepath.Rel` produces for an entry that deep in the tree. -/
def relOf : List String → String
  | [] => ""
  | [c] => c
  | c :: rest => c ++ "/" ++ relOf rest

/-- Component list of a root-relative URL or path: `filepath.Join`
normalization drops empty components. -/
def pathOf (url : String) : List String := (splitOnS url '/').filter (fun c => c != "")

/-! ## Classification helpers (code of this repository missing from src/) -/

/-- Modelled from the spec: `isHiddenOrTemp` (referenced by the walkers but not
in the provided sources) — "names starting with `.` or ending with `~`" are
hidden or temporary; the name checked is the entry's base name. -/
def isHiddenOrTemp (p : String) : Bool :=
  hasPrefixS (basename p) "." || endsWithS p "~"

/-- Modelled from the spec: `isTemplate` — "files whose path matches a
template-location convention become template sources", i.e. files under the
layouts/includes area of the source tree. -/
def isTemplate (rel : String) : Bool :=
  (splitOnS rel '/').headD "" == "_layouts" || (splitOnS rel '/').headD "" == "_includes"

/-- Last extension of a path, dot included ("" when there is none). -/
def extOf (p : String) : String :=
  match splitOnS (basename p) '.' with
  | [] => ""
  | [_] => ""
  | parts => "." ++ parts.getLastD ""

/-- Modelled from the spec: `isMarkdown` — recognizes the markdown source
extensions; non-markdown pages get their body compiled as a template. -/
def isMarkdown (ext : String) : Bool := ext == ".md" || ext == ".markdown"

/-- Modelled from the spec: the post-naming convention — a date-prefixed file
name `YYYY-MM-DD-title.ext`.  Returns the date encoded as
`year * 10000 + month * 100 + day` (the zero value of `time.Time` is 0). -/
def dateFromPrefix (base : String) : Option Nat :=
  match splitOnS base '-' with
  | y :: m :: d :: _ :: _ =>
    match toNatS y, toNatS m, toNatS d with
    | some yn, some mn, some dn =>
      if y.length == 4 && m.length == 2 && d.length == 2 then
        some (yn * 10000 + mn * 100 + dn)
      else none
    | _, _, _ => none
  | _ => none

/-- Modelled from the spec: `isPost` — "files matching a post-naming
convention (date-prefixed filename) become Posts". -/
def isPost (rel : String) : Bool := (dateFromPrefix (basename rel)).isSome

/-- Modelled from the spec: `isPage` — "remaining files with a recognized
markup extension become Pages". -/
def isPage (rel : String) : Bool :=
  extOf rel == ".html" || extOf rel == ".md" || extOf rel == ".markdown"

/-- Modelled from the spec: `isStatic` — "everything else is a static file". -/
def isStatic (_rel : String) : Bool := true

/-- Modelled from the spec: `appendExt` — normalizes a layout name to the
template engine's expected suffix, appending it when absent. -/
def appendExt (s ext : String) : String :=
  if endsWithS s ext then s else s ++ ext

/-! ## Permalink resolution (code of this repository missing from src/) -/

/-- Zero-padded two-digit rendering of a month or day. -/
def pad2 (n : Nat) : String := if n < 10 then "0" ++ toString n else "" ++ toString n

/-- Modelled from the spec: the `:title` token — "derived from the source
filename with the date prefix and extension stripped, lower-cased,
non-alphanumeric runs collapsed to a single hyphen". -/
def sanitizeSlug (s : String) : String :=
  let rec go : List Char → Bool → List Char
    | [], _ => []
    | c :: cs, prevHyphen =>
      if c.isAlphanum then c.toLower :: go cs false
      else if prevHyphen then go cs true
      else '-' :: go cs true
  String.mk (go s.data false)

/-- File name with the trailing extension removed. -/
def dropExt (p : String) : String := dropRightS p (extOf p).length

/-- The post slug: base name, date prefix and extension stripped, sanitized. -/
def slugOf (base : String) : String :=
  let noExt := dropExt base
  let noDate :=
    match splitOnS noExt '-' with
    | _ :: _ :: _ :: rest => intercalateS "-" rest
    | _ => noExt
  sanitizeSlug noDate

/-- Modelled from the spec: the PermalinkResolver — a pure function from
(pattern, post metadata) to the output URL.  Recognizes `:year`, `:month`,
`:day` (zero-padded), `:title`, `:categories`; unknown tokens pass through
literally.  The default pattern (named `date` in the configuration) is
equivalent to `/:categories/:year/:month/:day/:title.html` with
`:categories` coalesced away when empty. -/
def resolvePermalink (pattern : String) (date : Nat) (slug : String)
    (cats : List String) : String :=
  let y := date / 10000
  let m := date / 100 % 100
  let d := date % 100
  let catsJoined := intercalateS "/" cats
  if pattern == "date" then
    let catsPart := if cats.isEmpty then "" else "/" ++ catsJoined
    catsPart ++ "/" ++ toString y ++ "/" ++ pad2 m ++ "/" ++ pad2 d ++ "/" ++ slug ++ ".html"
  else
    ((((pattern.replace ":categories" catsJoined).replace
        ":year" (toString y)).replace
        ":month" (pad2 m)).replace
        ":day" (pad2 d)).replace
        ":title" slug

/-! ## Content model -/

/-- A content item as seen through the repository's `Page` interface
(`GetUrl`, `GetLayout`, `GetContent`, `GetExt`, `GetTitle`, `GetDescription`,
`GetCategories`, `GetTags`, `Get "date"`, `GetString "author"`).  `date` is
`none` when the item has no date field (`Get("date")` returns nil). -/
structure Page where
  url : String
  layout : String
  title : String
  description : String
  author : String
  content : String
  ext : String
  date : Option Nat
  categories : List String
  tags : List String
deriving DecidableEq, Repr

/-- Front-matter fields of a content file, as the front-matter parser
delivers them. -/
structure FrontMatter where
  title : String := ""
  layout : String := ""
  description : String := ""
  author : String := ""
  categories : List String := []
  tags : List String := []
  body : String := ""
deriving DecidableEq, Repr

/-- Configuration values: the heterogeneous values a `_config.yaml` map can
hold after the Aggregator has injected computed entries. -/
inductive ConfValue where
  | str (s : String)
  | strs (l : List String)
  | time (t : Nat)
  | pageList (l : List Page)
  | groups (m : List (String × List Page))
deriving DecidableEq, Repr

/-- `Config` is `map[string]interface{}` in the source; modelled as an
association list (key order is immaterial to `Get`). -/
abbrev Config : Type := List (String × ConfValue)

/-- `Config.Set`: sets a parameter value (map assignment). -/
def Config.set (c : Config) (key : String) (val : ConfValue) : Config :=
  if c.any (fun kv => kv.1 == key) then
    c.map (fun kv => if kv.1 == key then (key, val) else kv)
  else c ++ [(key, val)]

/-- `Config.Get`: gets a parameter value; `none` models Go's nil for an
absent key. -/
def Config.get (c : Config) (key : String) : Option ConfValue :=
  (c.find? (fun kv => kv.1 == key)).map (fun kv => kv.2)

/-- `Config.GetString`: the value as a string, "" when the key is absent.
(The source's unchecked type assertion panics on a present non-string value;
no configuration exercised here holds one where `GetString` is called.) -/
def Config.getString (c : Config) (key : String) : String :=
  match c.get key with
  | some (.str s) => s
  | _ => ""

/-- Modelled from the spec: `Config.GetStrings` (referenced by `NewSite` for
the destination-ignore list but not in the provided sources) — the value as a
string list, Go's nil slice (`none`) when the key is absent. -/
def Config.getStrings (c : Config) (key : String) : Option (List String) :=
  match c.get key with
  | some (.strs l) => some l
  | _ => none

/-- The data map passed to every template execution: `site` bound to the full
configuration, `page` to the item, and — once the body has been rendered —
`content` to the body. -/
structure RenderData where
  site : Config
  page : Page
  content : Option String

/-- The compiled template set (`text/template`), modelled by its contract:
addressed by name; executing a present name produces bytes deterministically
from the data; compiling a page body either fails or yields a deterministic
fragment.  (Execution errors of a present template are not modelled; the
behaviors the claims exercise are the missing-name error and the nil set.) -/
structure TemplateSet where
  names : List String
  render : String → RenderData → String
  compileBody : String → Option (RenderData → String)

/-- The aggregate root (`type Site struct`).  `ignore` is `Option` because Go
distinguishes a nil slice (no `destignore` configured) from a present one,
and `prep` branches on exactly that. -/
structure Site where
  Src : String
  Dest : String
  Conf : Config
  posts : List Page
  pages : List Page
  files : List String
  templ : Option TemplateSet
  ignore : Option (List String)

/-- `Site.matchIgnore`: true when `rel` has a string prefix among
`Site.ignore` (ranging over Go's nil slice yields no iterations). -/
def Site.matchIgnore (s : Site) (rel : String) : Bool :=
  (s.ignore.getD []).any (fun i => hasPrefixS rel i)

/-! ## Destination tree model and `Site.prep` -/

/-- The destination tree: whether the destination root directory exists, and
the files below it as (component path, bytes) pairs. -/
structure DestFS where
  rootExists : Bool
  files : List (List String × String)
deriving DecidableEq, Repr

/-- First-match lookup in a flat file list. -/
def lookupL : List (List String × String) → List String → Option String
  | [], _ => none
  | e :: rest, p => if e.1 == p then some e.2 else lookupL rest p

/-- Lookup of a file's bytes in a destination tree. -/
def lookupFS (fs : DestFS) (p : List String) : Option String := lookupL fs.files p

/-- `ioutil.WriteFile` semantics on the flat list: overwrite the existing
entry, else append. -/
def upsertL (l : List (List String × String)) (p : List String) (c : String) :
    List (List String × String) :=
  match l with
  | [] => [(p, c)]
  | e :: rest => if e.1 == p then (p, c) :: rest else e :: upsertL rest p c

/-- The walker's decision for one destination entry (`Site.prep`'s switch). -/
inductive WalkAct where
  | skipRoot
  | keepSkipDir
  | keepFile
  | removeAll
  | removeFile
deriving DecidableEq, Repr

/-- The body of `Site.prep`'s walker, case for case: skip the root itself
(`s.Dest == fn`, i.e. `rel = "."`); an ignore-matching directory is pruned
whole (`filepath.SkipDir`, so its subtree is never visited and survives
verbatim); an ignore-matching file is left; any other directory is removed
recursively (`os.RemoveAll`); any other file is removed. -/
def Site.prepWalker (s : Site) (rel : String) (isDir : Bool) : WalkAct :=
  if rel == "." then .skipRoot
  else if s.matchIgnore rel && isDir then .keepSkipDir
  else if s.matchIgnore rel then .keepFile
  else if isDir then .removeAll
  else .removeFile

/-- Whether a destination file at component path `p` survives the walk.  The
walker only ever acts on top-level entries: a kept directory is pruned with
`SkipDir` before descent, and a removed directory's subtree is already gone
when the walk (Go 1.x `filepath.Walk`, which calls the walk function on a
directory before reading it) tries to descend, so the re-invocation with the
read error removes nothing further and no child is visited. -/
def Site.prepKeeps (s : Site) (p : List String) : Bool :=
  match p with
  | [] => false
  | [c] => s.prepWalker c false == .keepFile
  | c :: _ :: _ => s.prepWalker c true == .keepSkipDir

/-- `Site.prep`: ensure the destination root exists (`os.MkdirAll`); then, if
no ignore list is configured (nil slice), `os.RemoveAll(s.Dest)` — the root
itself is deleted; otherwise walk the destination and keep exactly what the
walker keeps.  (Walk and `MkdirAll` I/O errors are not modelled; the claims
concern the successful paths.) -/
def Site.prep (s : Site) (fs : DestFS) : DestFS :=
  let fs := { fs with rootExists := true }
  match s.ignore with
  | none => { rootExists := false, files := [] }
  | some _ => { fs with files := fs.files.filter (fun e => s.prepKeeps e.1) }

/-- `Site.prep`'s net keep-decision across both branches: nothing survives
the nil-ignore branch; the walk branch keeps what the walker keeps. -/
def Site.keepQ (s : Site) (p : List String) : Bool :=
  match s.ignore with
  | none => false
  | some _ => s.prepKeeps p

/-! ## Feed model (`gorilla/feeds`, external, modelled by its contract) -/

/-- One feed entry, with the fields `Site.writePages` fills in
(`Title`, `Link.Href`, `Description`, `Author.Name`, `Created`). -/
structure FeedItem where
  title : String
  link : String
  description : String
  author : String
  created : Nat
deriving DecidableEq, Repr

/-- The feed being accumulated during a generation pass, with the fields
`Site.writePages` sets from the configuration plus `Created = time.Now()`. -/
structure FeedData where
  title : String
  link : String
  description : String
  authorName : String
  authorEmail : String
  copyright : String
  created : Nat
  items : List FeedItem
deriving DecidableEq, Repr

/-- Serialization of one feed entry. -/
def feedItemStr (it : FeedItem) : String :=
  it.title ++ "|" ++ it.link ++ "|" ++ it.description ++ "|" ++ it.author
    ++ "|" ++ toString it.created

/-- Models `feeds.Feed.ToAtom`: a deterministic serialization of the feed's
fields and entries.  The feed-level `Created` timestamp appears in the output
(it becomes the Atom document's `updated` element), which is what matters to
the claims; the concrete markup is immaterial and abbreviated here. -/
def feedToAtom (f : FeedData) : String :=
  f.title ++ "|" ++ f.link ++ "|" ++ f.description ++ "|" ++ f.authorName
    ++ "|" ++ f.authorEmail ++ "|" ++ f.copyright ++ "|" ++ toString f.created
    ++ "|" ++ intercalateS ";" (f.items.map feedItemStr)

/-- The feed skeleton `Site.writePages` sets up, fields read from the
configuration, `Created` bound to the current time. -/
def Site.feedOf (s : Site) (now : Nat) (items : List FeedItem) : FeedData :=
  { title := s.Conf.getString "title"
    link := s.Conf.getString "baseurl"
    description := s.Conf.getString "description"
    authorName := s.Conf.getString "author"
    authorEmail := s.Conf.getString "email"
    copyright := s.Conf.getString "copyright"
    created := now
    items := items }

/-- The feed entry a page contributes: "Posts are any page with a date field"
— any item whose resolved `date` is non-zero is folded into the feed, with
title, original URL, description and author taken from the item. -/
def pageFeedItem (page : Page) : Option FeedItem :=
  if page.date.getD 0 != 0 then
    some { title := page.title
           link := page.url
           description := page.description
           author := page.author
           created := page.date.getD 0 }
  else none

/-! ## Rendering (`Site.writePages`) -/

/-- Outcome of a step that can fail with a Go error or crash with a runtime
panic (nil-pointer dereference). -/
inductive StepOut (α : Type) where
  | ok (a : α)
  | err (msg : String)
  | panic
deriving DecidableEq, Repr

/-- One iteration of `Site.writePages`' loop over a page: resolve the
destination path (append `index.html` to a directory URL); for a non-markdown
page, guard against a nil template set and compile-and-execute the body as a
template (both failures abort with an error, as in the source); compose with
the named layout unless the layout is empty or the `nil` sentinel — the
layout executes via `s.templ.ExecuteTemplate` whose error the source
DISCARDS, so a missing layout name leaves the buffer empty; calling it on a
nil template set is a nil-pointer dereference, i.e. a panic.  Returns the
written (path, bytes) and the page's feed contribution. -/
def Site.renderPage (s : Site) (page : Page) :
    StepOut (List String × String × Option FeedItem) :=
  let url := page.url
  let url := if endsWithS url "/" then url ++ "index.html" else url
  let layout := page.layout
  let data : RenderData := { site := s.Conf, page := page, content := none }
  let contentR : StepOut String :=
    if isMarkdown page.ext == false then
      match s.templ with
      | none => .err ("No templates defined for page: " ++ url)
      | some ts =>
        match ts.compileBody page.content with
        | none => .err ("template: parse error in " ++ url)
        | some f => .ok (f data)
    else .ok page.content
  match contentR with
  | .err m => .err m
  | .panic => .panic
  | .ok content =>
    let data := { data with content := some content }
    let bufR : StepOut String :=
      if layout == "" || layout == "nil" then .ok content
      else
        let layoutN := appendExt layout ".html"
        match s.templ with
        | none => .panic
        | some ts => .ok (if ts.names.contains layoutN then ts.render layoutN data else "")
    match bufR with
    | .err m => .err m
    | .panic => .panic
    | .ok buf => .ok (pathOf url, buf, pageFeedItem page)

/-- The sequence of file writes and feed entries `Site.writePages` produces
for a list of pages, aborting at the first failing page as the source's loop
does.  Rendering never reads the destination tree, so the writes are computed
independently of it and applied afterwards; on an aborting run the file
writes made before the failure are not tracked (no claim inspects the
destination after a failed run). -/
def Site.renderAll (s : Site) : List Page → StepOut (List (List String × String) × List FeedItem)
  | [] => .ok ([], [])
  | p :: rest =>
    match s.renderPage p with
    | .err m => .err m
    | .panic => .panic
    | .ok (path, bytes, item) =>
      match s.renderAll rest with
      | .err m => .err m
      | .panic => .panic
      | .ok (ws, its) => .ok ((path, bytes) :: ws, item.toList ++ its)

/-- Outcome of `Site.writePages` / `Site.Generate`. -/
inductive WPOut where
  | ok (fs : DestFS)
  | err (msg : String)
  | panicNilDeref
deriving DecidableEq, Repr

/-- The destination tree of a successful outcome. -/
def WPOut.fsOrEmpty : WPOut → DestFS
  | .ok fs => fs
  | _ => { rootExists := false, files := [] }

/-- Whether the outcome is a success. -/
def WPOut.isOk : WPOut → Bool
  | .ok _ => true
  | _ => false

/-- File lookup through a successful outcome. -/
def WPOut.lookup? (r : WPOut) (p : List String) : Option String :=
  lookupFS r.fsOrEmpty p

/-- Applying the loop's file writes in order: each write is preceded by
`os.MkdirAll` on its parent chain, which (re)creates the destination root,
and `ioutil.WriteFile` overwrites any existing file. -/
def applyWrites (fs : DestFS) (ws : List (List String × String)) : DestFS :=
  ws.foldl (fun fs w => { rootExists := true, files := upsertL fs.files w.1 w.2 }) fs

/-- `Site.writePages`: renders `s.pages ++ s.posts` in order (the source
concatenates the two lists and uses one rendering loop), then writes the
accumulated feed to `atom.xml` at the destination root — a plain
`ioutil.WriteFile`, which fails when the root directory does not exist. -/
def Site.writePages (s : Site) (now : Nat) (fs : DestFS) : WPOut :=
  match s.renderAll (s.pages ++ s.posts) with
  | .panic => .panicNilDeref
  | .err m => .err m
  | .ok (ws, items) =>
    let fs := applyWrites fs ws
    if fs.rootExists then
      .ok { fs with files := upsertL fs.files ["atom.xml"] (feedToAtom (s.feedOf now items)) }
    else .err "open atom.xml: no such file or directory"

/-- `Site.writeStatic`: copy every recorded static file from the source tree
to the destination, creating parent directories (`copyTo` is the external OS
copy primitive, modelled as a successful copy of the source bytes `src rel`). -/
def Site.writeStatic (s : Site) (src : String → String) (fs : DestFS) : DestFS :=
  applyWrites fs (s.files.map (fun rel => (pathOf rel, src rel)))

/-- `Site.Generate`: prep the destination, write pages and posts (and the
feed), then copy static files; any failure aborts. -/
def Site.Generate (s : Site) (src : String → String) (fs : DestFS) (now : Nat) : WPOut :=
  match s.writePages now (s.prep fs) with
  | .ok fs => .ok (s.writeStatic src fs)
  | r => r

/-- The component paths the current rendering pass writes below the
destination root: the rendered pages and posts, plus the copied static files
(the feed file `atom.xml` is accounted separately). -/
def Site.genPaths (s : Site) : List (List String) :=
  (match s.renderAll (s.pages ++ s.posts) with
   | .ok (ws, _) => ws.map (fun w => w.1)
   | _ => []) ++ s.files.map pathOf

/-! ## Deploy (`Site.Deploy`) -/

/-- One file of the destination tree as `Site.Deploy`'s walker sees it,
together with the modelled outcomes of the external S3 client: whether the
first `b.Put` succeeds, whether the second (retry) succeeds, and the error
message a failing put reports. -/
structure UploadFile where
  rel : String
  readErr : Option String := none
  put1 : Bool
  put2 : Bool
  putErr : String := "upload failed"
deriving DecidableEq, Repr

/-- Observable events of a deploy run: an upload attempt for a file, and the
fixed backoff sleep between a failed attempt and its retry. -/
inductive DeployEvent where
  | put (rel : String)
  | sleep
deriving DecidableEq, Repr

/-- `Site.Deploy`'s walker over the destination files, in walk order: read
the file (a read error aborts the walk); try `b.Put`; on failure sleep the
fixed backoff and return the result of exactly one more `b.Put` — a second
failure is returned from the walker and so aborts `filepath.Walk`, hence the
whole Deploy, with that file's error.  Returns the event trace and the
error `Site.Deploy` returns (`none` for success). -/
def deployRun : List UploadFile → List DeployEvent × Option String
  | [] => ([], none)
  | f :: rest =>
    match f.readErr with
    | some e => ([], some e)
    | none =>
      if f.put1 then
        let r := deployRun rest
        (.put f.rel :: r.1, r.2)
      else if f.put2 then
        let r := deployRun rest
        (.put f.rel :: .sleep :: .put f.rel :: r.1, r.2)
      else
        ([.put f.rel, .sleep, .put f.rel], some f.putErr)

/-- Number of upload attempts for `rel` in a deploy trace. -/
def putCount (tr : List DeployEvent) (rel : String) : Nat :=
  tr.countP (fun e => e == .put rel)

/-- Number of backoff sleeps in a deploy trace. -/
def sleepCount (tr : List DeployEvent) : Nat :=
  tr.countP (fun e => e == .sleep)

/-- Index of the first file whose upload fails twice. -/
def firstFatalIdx : List UploadFile → Option Nat
  | [] => none
  | f :: rest =>
    if !f.put1 && !f.put2 then some 0 else (firstFatalIdx rest).map (fun k => k + 1)

/-- Whether the resolved dates of a post list are nondecreasing. -/
def datesSorted : List Page → Bool
  | [] => true
  | [_] => true
  | a :: b :: rest => decide (a.date.getD 0 ≤ b.date.getD 0) && datesSorted (b :: rest)

/-! ## Scanning (`Site.read`, `Site.Reload`) -/

instance {ε α : Type} [DecidableEq ε] [DecidableEq α] : DecidableEq (Except ε α) := fun a b =>
  match a, b with
  | .error e, .error f =>
    if h : e = f then isTrue (congrArg Except.error h)
    else isFalse (fun hh => h (by cases hh; rfl))
  | .error _, .ok _ => isFalse (fun hh => by cases hh)
  | .ok _, .error _ => isFalse (fun hh => by cases hh)
  | .ok x, .ok y =>
    if h : x = y then isTrue (congrArg Except.ok h)
    else isFalse (fun hh => h (by cases hh; rfl))

/-- One entry of the source tree in the order `filepath.Walk` visits it
(lexicographic by path at every level, root excluded — the root directory is
skipped by the walker's plain-directory case).  For content files, `fm` is
the outcome of reading and front-matter-parsing the file; `.error` models an
unreadable file or malformed front matter. -/
structure SrcEntry where
  rel : String
  isDir : Bool
  fm : Except String FrontMatter := .ok {}
deriving DecidableEq, Repr

/-- A source tree: the walked entries plus the behavior of the external
`text/template` engine on the collected layout files
(`template.New("layouts").Funcs(funcMap).ParseFiles(layouts...)`). -/
structure SrcTree where
  entries : List SrcEntry
  compile : List String → Except String TemplateSet

/-- Is `rel` strictly below directory `d`? -/
def underDir (d rel : String) : Bool := hasPrefixS rel (d ++ "/")

/-- The effective permalink pattern: the configured one, or Jekyll's default
`date` style when none is configured. -/
def permalinkOf (c : Config) : String :=
  let p := c.getString "permalink"
  if p == "" then "date" else p

/-- Modelled from the spec: `ParsePost` (referenced by `Site.read` but not in
the provided sources) — parse the front matter (failure aborts), resolve the
required date from the date-prefixed file name, and compute the URL once via
the PermalinkResolver. -/
def parsePost (rel : String) (permalink : String) (fm : Except String FrontMatter) :
    Except String Page :=
  match fm with
  | .error e => .error e
  | .ok f =>
    match dateFromPrefix (basename rel) with
    | none => .error ("invalid post filename: " ++ rel)
    | some d =>
      .ok { url := resolvePermalink permalink d (slugOf (basename rel)) f.categories
            layout := f.layout
            title := f.title
            description := f.description
            author := f.author
            content := f.body
            ext := extOf rel
            date := some d
            categories := f.categories
            tags := f.tags }

/-- Modelled from the spec: `ParsePage` (referenced by `Site.read` but not in
the provided sources) — parse the front matter (failure aborts); a page's URL
mirrors its source path with the markup extension replaced by `.html`; only
posts carry a date ("items without a resolvable date are not posts"), so a
page's date field is nil. -/
def parsePage (rel : String) (fm : Except String FrontMatter) : Except String Page :=
  match fm with
  | .error e => .error e
  | .ok f =>
    .ok { url := "/" ++ dropExt rel ++ ".html"
          layout := f.layout
          title := f.title
          description := f.description
          author := f.author
          content := f.body
          ext := extOf rel
          date := none
          categories := f.categories
          tags := f.tags }

/-- Insert a post under a label in the aggregation map (`categories[c] =
append(posts, post)` or a fresh singleton list). -/
def insertGroup (acc : List (String × List Page)) (c : String) (p : Page) :
    List (String × List Page) :=
  if acc.any (fun kv => kv.1 == c) then
    acc.map (fun kv => if kv.1 == c then (kv.1, kv.2 ++ [p]) else kv)
  else acc ++ [(c, [p])]

/-- Grouping of the post list by a label-valued field, in post-list and
label-occurrence order (`Site.calculateTags` / `Site.calculateCategories`). -/
def groupPages (key : Page → List String) (posts : List Page) : List (String × List Page) :=
  posts.foldl (fun acc post => (key post).foldl (fun acc c => insertGroup acc c post) acc) []

/-- `Site.calculateTags`: aggregate tags→posts into the configuration. -/
def Site.calculateTags (s : Site) : Site :=
  { s with Conf := s.Conf.set "tags" (.groups (groupPages Page.tags s.posts)) }

/-- `Site.calculateCategories`: aggregate categories→posts into the
configuration. -/
def Site.calculateCategories (s : Site) : Site :=
  { s with Conf := s.Conf.set "categories" (.groups (groupPages Page.categories s.posts)) }

/-- `Site.read`'s walker over the source entries, case for case and in the
source's case order: entries below a directory pruned earlier are never
visited (`skips` carries the pruned directories, modelling
`filepath.SkipDir`); a hidden/temp directory is pruned; an ordinary directory
is skipped as an entry; a hidden/temp file is skipped; a template file is
collected for later compilation; a post is parsed (failure aborts the walk
with that error) and PREPENDED to the post list; a page is parsed (failure
aborts) and appended; everything else is recorded as a static file.  Returns
the mutated site, the collected layout files, and the aborting error if any
(the site keeps the mutations made before the failure, as in Go). -/
def Site.readLoop : Site → List String → List String → List SrcEntry →
    Site × List String × Option String
  | s, _, layouts, [] => (s, layouts, none)
  | s, skips, layouts, e :: rest =>
    if skips.any (fun d => underDir d e.rel) then
      Site.readLoop s skips layouts rest
    else if e.isDir && isHiddenOrTemp e.rel then
      Site.readLoop s (skips ++ [e.rel]) layouts rest
    else if e.isDir then
      Site.readLoop s skips layouts rest
    else if isHiddenOrTemp e.rel then
      Site.readLoop s skips layouts rest
    else if isTemplate e.rel then
      Site.readLoop s skips (layouts ++ [e.rel]) rest
    else if isPost e.rel then
      match parsePost e.rel (permalinkOf s.Conf) e.fm with
      | .error m => (s, layouts, some m)
      | .ok post => Site.readLoop { s with posts := post :: s.posts } skips layouts rest
    else if isPage e.rel then
      match parsePage e.rel e.fm with
      | .error m => (s, layouts, some m)
      | .ok page => Site.readLoop { s with pages := s.pages ++ [page] } skips layouts rest
    else
      Site.readLoop { s with files := s.files ++ [e.rel] } skips layouts rest

/-- `Site.read`: walk the source tree collecting posts, pages, templates and
static files; compile the collected templates, if any (a compile error
aborts); then inject `posts` and the current time into the configuration and
run the aggregations.  Returns the (possibly partially) mutated site and the
aborting error if any. -/
def Site.read (s : Site) (t : SrcTree) (now : Nat) : Site × Option String :=
  match Site.readLoop s [] [] t.entries with
  | (s1, _, some e) => (s1, some e)
  | (s1, layouts, none) =>
    match (if layouts.length > 0 then (t.compile layouts).map some
           else .ok s1.templ : Except String (Option TemplateSet)) with
    | .error e => (s1, some e)
    | .ok tm =>
      let s2 := { s1 with templ := tm }
      let s3 := { s2 with Conf := (s2.Conf.set "posts" (.pageList s2.posts)).set "time" (.time now) }
      ((s3.calculateTags).calculateCategories, none)

/-- `Site.Reload`: reset posts, pages, static files and templates to their
zero values, then re-scan — the reset happens BEFORE the scan, so a failing
scan leaves the cleared/partially repopulated state, not the prior one. -/
def Site.Reload (s : Site) (t : SrcTree) (now : Nat) : Site × Option String :=
  Site.read { s with posts := [], pages := [], files := [], templ := none } t now

/-- The posts of a source tree in walk order (parse successes, under the same
pruning and classification as `Site.readLoop`): the projection used to relate
the post list to the walk order. -/
def walkPosts (permalink : String) : List String → List SrcEntry → List Page
  | _, [] => []
  | skips, e :: rest =>
    if skips.any (fun d => underDir d e.rel) then
      walkPosts permalink skips rest
    else if e.isDir && isHiddenOrTemp e.rel then
      walkPosts permalink (skips ++ [e.rel]) rest
    else if e.isDir then
      walkPosts permalink skips rest
    else if isHiddenOrTemp e.rel then
      walkPosts permalink skips rest
    else if isTemplate e.rel then
      walkPosts permalink skips rest
    else if isPost e.rel then
      match parsePost e.rel permalink e.fm with
      | .error _ => walkPosts permalink skips rest
      | .ok post => post :: walkPosts permalink skips rest
    else
      walkPosts permalink skips rest

/-! ## Concrete instances used by the claim theorems and witnesses -/

/-- A previously committed post, for exercising `Site.Reload`. -/
def pageC1 : Page :=
  { url := "/2020/01/01/old.html", layout := "", title := "old", description := ""
    author := "", content := "old body", ext := ".md", date := some 20200101
    categories := [], tags := [] }

/-- A site holding one committed post. -/
def siteC1 : Site :=
  { Src := "/src", Dest := "/dest", Conf := [], posts := [pageC1], pages := []
    files := [], templ := none, ignore := none }

/-- A source tree whose single post file has malformed front matter. -/
def treeC1 : SrcTree :=
  { entries := [{ rel := "2021-01-01-bad.md", isDir := false
                  fm := .error "yaml: malformed front matter" }]
    compile := fun _ => .error "unused" }

/-- `siteC1` with its committed content cleared. -/
def siteC1b : Site := { siteC1 with posts := [] }

/-- A template set that does not define `missing.html`. -/
def tsC2 : TemplateSet :=
  { names := ["other.html"], render := fun _ _ => "RENDERED", compileBody := fun _ => none }

/-- A markdown page naming a layout absent from the template set. -/
def pageC2 : Page :=
  { url := "/p.html", layout := "missing", title := "", description := "", author := ""
    content := "hello", ext := ".md", date := none, categories := [], tags := [] }

/-- A site whose only page asks for the missing layout. -/
def siteC2 : Site :=
  { Src := "/src", Dest := "/dest", Conf := [], posts := [], pages := [pageC2]
    files := [], templ := some tsC2, ignore := some [] }

/-- An existing, empty destination for the C2 run. -/
def fsC2 : DestFS := { rootExists := true, files := [] }

/-- A minimal site with an (empty) configured ignore list. -/
def siteC3 : Site :=
  { Src := "/src", Dest := "/dest", Conf := [], posts := [], pages := []
    files := [], templ := none, ignore := some [] }

/-- A source-content oracle for trees with no static files. -/
def srcEmpty : String → String := fun _ => ""

/-- An existing, empty destination. -/
def fsC3 : DestFS := { rootExists := true, files := [] }

/-- A site with no `destignore` configured (nil ignore slice). -/
def siteC4 : Site :=
  { Src := "/src", Dest := "/dest", Conf := [], posts := [], pages := []
    files := [], templ := none, ignore := none }

/-- A destination holding one stale file. -/
def fsC4 : DestFS := { rootExists := true, files := [(["old.html"], "stale")] }

/-- A site whose ignore list holds the two-component entry `a/b`. -/
def siteC5 : Site :=
  { Src := "/src", Dest := "/dest", Conf := [], posts := [], pages := []
    files := [], templ := none, ignore := some ["a/b"] }

/-- A destination holding the file `a/b`, whose relative path matches the
ignore entry `a/b` as a string prefix. -/
def fsC5 : DestFS := { rootExists := true, files := [(["a", "b"], "precious")] }

/-- Scenario B site: ignore list `[".git"]`, nothing to render. -/
def siteW5 : Site :=
  { Src := "/src", Dest := "/dest", Conf := [], posts := [], pages := []
    files := [], templ := none, ignore := some [".git"] }

/-- Scenario B destination: pre-populated with `.git/config` and `stale.html`. -/
def fsW5 : DestFS :=
  { rootExists := true, files := [([".git", "config"], "cfg"), (["stale.html"], "old")] }

/-- A dated post for the feed. -/
def postW6 : Page :=
  { url := "/2021/03/05/hello.html", layout := "", title := "hello", description := "d1"
    author := "a1", content := "body1", ext := ".md", date := some 20210305
    categories := [], tags := [] }

/-- An item in the post list whose date field resolves to nil. -/
def postW6b : Page :=
  { url := "/z.html", layout := "", title := "z", description := "", author := ""
    content := "bodyz", ext := ".md", date := none, categories := [], tags := [] }

/-- An ordinary dateless page. -/
def pageW6 : Page :=
  { url := "/about.html", layout := "", title := "about", description := "", author := ""
    content := "about body", ext := ".md", date := none, categories := [], tags := [] }

/-- A site with one dated post, one dateless post-list item and one page. -/
def siteW6 : Site :=
  { Src := "/src", Dest := "/dest", Conf := [("title", .str "T")], posts := [postW6, postW6b]
    pages := [pageW6], files := [], templ := none, ignore := some [] }

/-- An existing, empty destination for the feed witness. -/
def fsW6 : DestFS := { rootExists := true, files := [] }

/-- A site about to perform its initial scan. -/
def siteC7 : Site :=
  { Src := "/src", Dest := "/dest", Conf := [], posts := [], pages := []
    files := [], templ := none, ignore := none }

/-- Two posts in two sibling directories: the lexicographically earlier
directory holds the LATER-dated post. -/
def treeC7 : SrcTree :=
  { entries :=
      [ { rel := "a", isDir := true }
        , { rel := "a/2021-05-01-x.md", isDir := false, fm := .ok {} }
        , { rel := "b", isDir := true }
        , { rel := "b/2020-01-01-y.md", isDir := false, fm := .ok {} } ]
    compile := fun _ => .error "unused" }

/-- The post list the scan of `treeC7` commits. -/
def postsC7 : List Page := ((siteC7.read treeC7 0).1).posts

/-- Two posts in one directory, visited in ascending date order. -/
def treeW7 : SrcTree :=
  { entries :=
      [ { rel := "_posts", isDir := true }
        , { rel := "_posts/2020-01-01-a.md", isDir := false, fm := .ok {} }
        , { rel := "_posts/2021-05-01-b.md", isDir := false, fm := .ok {} } ]
    compile := fun _ => .error "unused" }

/-- Upload behaviors exercising every Deploy case: first-try success,
success on retry, double failure, and a file never reached. -/
def filesW8 : List UploadFile :=
  [ { rel := "index.html", put1 := true, put2 := true }
    , { rel := "a.css", put1 := false, put2 := true }
    , { rel := "b.js", put1 := false, put2 := false, putErr := "boom" }
    , { rel := "c.png", put1 := true, put2 := true } ]

/-- A site whose ignore list holds the two-component entry `x/y`. -/
def siteC9 : Site :=
  { Src := "/src", Dest := "/dest", Conf := [], posts := [], pages := []
    files := [], templ := none, ignore := some ["x/y"] }

/-- A destination holding the file `x/y`. -/
def fsC9 : DestFS := { rootExists := true, files := [(["x", "y"], "v")] }

/-- A site whose ignore list holds `.git`. -/
def siteW9 : Site :=
  { Src := "/src", Dest := "/dest", Conf := [], posts := [], pages := []
    files := [], templ := none, ignore := some [".git"] }

/-- A destination holding a top-level file `.gitfoo` — a character-prefix
match for `.git` that is not a path-component match. -/
def fsW9 : DestFS := { rootExists := true, files := [([".gitfoo"], "data")] }

/-- A markdown page that names a layout while no templates were scanned. -/
def pageW10 : Page :=
  { url := "/post.html", layout := "default", title := "", description := "", author := ""
    content := "body", ext := ".md", date := none, categories := [], tags := [] }

/-- A site with a nil template set and a markdown page wanting a layout. -/
def siteW10 : Site :=
  { Src := "/src", Dest := "/dest", Conf := [], posts := [], pages := [pageW10]
    files := [], templ := none, ignore := some [] }

/-! ## Helper lemmas about the destination-tree operations -/

theorem lookupL_upsertL (l : List (List String × String)) (p q : List String) (c : String) :
    lookupL (upsertL l p c) q = if q = p then some c else lookupL l q := by
  induction l with
  | nil =>
    by_cases h : q = p
    · simp [upsertL, lookupL, h, beq_iff_eq]
    · simp [upsertL, lookupL, h, beq_iff_eq, Ne.symm h]
  | cons e rest ih =>
    by_cases he : e.1 = p
    · by_cases h : q = p
      · simp [upsertL, lookupL, he, h, beq_iff_eq]
      · simp [upsertL, lookupL, he, h, beq_iff_eq, Ne.symm h]
    · by_cases h : q = p
      · subst h
        simp [upsertL, lookupL, he, beq_iff_eq, ih]
      · by_cases hq : e.1 = q <;>
          simp [upsertL, lookupL, he, h, hq, beq_iff_eq, ih]

/-- The last write among a write list that targets `q`, if any. -/
def writesLookup : List (List String × String) → List String → Option String
  | [], _ => none
  | w :: ws, q =>
    match writesLookup ws q with
    | some c => some c
    | none => if w.1 == q then some w.2 else none

theorem lookupFS_applyWrites (fs : DestFS) (ws : List (List String × String))
    (q : List String) :
    lookupFS (applyWrites fs ws) q =
      match writesLookup ws q with
      | some c => some c
      | none => lookupFS fs q := by
  induction ws generalizing fs with
  | nil => simp [applyWrites, writesLookup]
  | cons w ws ih =>
    show lookupFS (applyWrites { rootExists := true, files := upsertL fs.files w.1 w.2 } ws) q = _
    rw [ih]
    cases hws : writesLookup ws q with
    | some c => simp [writesLookup, hws]
    | none =>
      simp only [writesLookup, hws]
      show (match (none : Option String) with
            | some c => some c
            | none => lookupL (upsertL fs.files w.1 w.2) q) = _
      simp only
      rw [lookupL_upsertL]
      by_cases h : q = w.1
      · simp [h, lookupFS, beq_iff_eq]
      · simp [h, lookupFS, beq_iff_eq, Ne.symm h]

theorem rootExists_applyWrites (fs : DestFS) (ws : List (List String × String))
    (h : fs.rootExists = true) : (applyWrites fs ws).rootExists = true := by
  induction ws generalizing fs with
  | nil => simpa [applyWrites] using h
  | cons w ws ih =>
    show (applyWrites { rootExists := true, files := upsertL fs.files w.1 w.2 } ws).rootExists = true
    exact ih _ rfl

theorem writesLookup_eq_none (ws : List (List String × String)) (q : List String)
    (h : q ∉ ws.map (fun w => w.1)) : writesLookup ws q = none := by
  induction ws with
  | nil => rfl
  | cons w ws ih =>
    simp only [List.map_cons, List.mem_cons, not_or] at h
    simp [writesLookup, ih h.2, beq_iff_eq, Ne.symm h.1]

theorem lookupL_filter (f : List String → Bool) (l : List (List String × String))
    (q : List String) :
    lookupL (l.filter (fun e => f e.1)) q = if f q then lookupL l q else none := by
  induction l with
  | nil => simp [lookupL]
  | cons e rest ih =>
    by_cases hk : f e.1
    · by_cases hq : e.1 = q
      · subst hq
        simp [List.filter_cons, hk, lookupL, beq_iff_eq]
      · simp [List.filter_cons, hk, lookupL, beq_iff_eq, hq, ih]
    · by_cases hq : e.1 = q
      · subst hq
        simp [List.filter_cons, hk, lookupL, beq_iff_eq, ih]
      · simp [List.filter_cons, hk, lookupL, beq_iff_eq, hq, ih]

theorem lookupFS_prep (s : Site) (fs : DestFS) (q : List String) :
    lookupFS (s.prep fs) q = if s.keepQ q then lookupFS fs q else none := by
  unfold Site.prep Site.keepQ
  cases hig : s.ignore with
  | none => simp [lookupFS, lookupL]
  | some ign =>
    simpa [lookupFS] using lookupL_filter (fun p => s.prepKeeps p) fs.files q

theorem rootExists_prep (s : Site) (fs : DestFS) :
    (s.prep fs).rootExists = s.ignore.isSome := by
  unfold Site.prep
  cases s.ignore <;> simp

/-! ## Helper lemmas about ignore matching and `Site.Generate` -/

theorem matchIgnore_mono (s : Site) (a r : String) (h : s.matchIgnore a = true) :
    s.matchIgnore (a ++ r) = true := by
  unfold Site.matchIgnore at h ⊢
  rw [List.any_eq_true] at h ⊢
  obtain ⟨i, hi, hpre⟩ := h
  refine ⟨i, hi, ?_⟩
  unfold hasPrefixS at hpre ⊢
  rw [List.isPrefixOf_iff_prefix] at hpre ⊢
  rw [String.data_append]
  exact hpre.trans (List.prefix_append _ _)

theorem prepKeeps_matchIgnore (s : Site) (p : List String)
    (h : s.prepKeeps p = true) : s.matchIgnore (relOf p) = true := by
  match p with
  | [] => simp [Site.prepKeeps] at h
  | [c] =>
    unfold Site.prepKeeps Site.prepWalker at h
    by_cases hdot : c == "."
    · simp [hdot] at h
    · by_cases hm : s.matchIgnore c
      · simpa [relOf] using hm
      · simp [hdot, hm] at h
  | c :: d :: rest =>
    have hm : s.matchIgnore c = true := by
      unfold Site.prepKeeps Site.prepWalker at h
      by_cases hdot : c == "."
      · simp [hdot] at h
      · by_cases hm : s.matchIgnore c
        · exact hm
        · simp [hdot, hm] at h
    show s.matchIgnore (c ++ "/" ++ relOf (d :: rest)) = true
    rw [String.append_assoc]
    exact matchIgnore_mono s c _ hm

theorem generate_ok_elim (s : Site) (src : String → String) (fs : DestFS) (t : Nat)
    (fs' : DestFS) (h : s.Generate src fs t = .ok fs') :
    ∃ ws items, s.renderAll (s.pages ++ s.posts) = .ok (ws, items) ∧
      (applyWrites (s.prep fs) ws).rootExists = true ∧
      fs' = applyWrites
        { applyWrites (s.prep fs) ws with
          files := upsertL (applyWrites (s.prep fs) ws).files ["atom.xml"]
            (feedToAtom (s.feedOf t items)) }
        (s.files.map (fun rel => (pathOf rel, src rel))) := by
  unfold Site.Generate Site.writePages at h
  cases hra : s.renderAll (s.pages ++ s.posts) with
  | panic => rw [hra] at h; simp at h
  | err m => rw [hra] at h; simp at h
  | ok pair =>
    obtain ⟨ws, items⟩ := pair
    rw [hra] at h
    by_cases hroot : (applyWrites (s.prep fs) ws).rootExists = true
    · refine ⟨ws, items, rfl, hroot, ?_⟩
      simp only [hroot, if_true] at h
      simp only [hroot]
      injection h with h2
      rw [← h2]
      rfl
    · simp only [Bool.not_eq_true] at hroot
      simp [hroot] at h

/-! ## Helper lemmas about rendering and the feed -/

theorem renderPage_item (s : Site) (p : Page) (a : List String) (b : String)
    (it : Option FeedItem) (h : s.renderPage p = .ok (a, b, it)) :
    it = pageFeedItem p := by
  unfold Site.renderPage at h
  repeat'
    first
      | split at h
      | dsimp only at h
  all_goals
    first
      | (injection h with h1
         injection h1 with h2 h3
         injection h3 with h4 h5
         exact h5.symm)
      | injection h

theorem renderAll_items (s : Site) (ps : List Page) (ws : List (List String × String))
    (its : List FeedItem) (h : s.renderAll ps = .ok (ws, its)) :
    its = ps.filterMap pageFeedItem := by
  induction ps generalizing ws its with
  | nil =>
    unfold Site.renderAll at h
    injection h with h1
    injection h1 with h2 h3
    simp [← h3]
  | cons p rest ih =>
    unfold Site.renderAll at h
    cases hp : s.renderPage p with
    | err m => rw [hp] at h; exact absurd h (by simp)
    | panic => rw [hp] at h; exact absurd h (by simp)
    | ok triple =>
      obtain ⟨pa, pb, item⟩ := triple
      rw [hp] at h
      cases hr : s.renderAll rest with
      | err m => rw [hr] at h; exact absurd h (by simp)
      | panic => rw [hr] at h; exact absurd h (by simp)
      | ok pair =>
        obtain ⟨ws2, its2⟩ := pair
        rw [hr] at h
        injection h with h1
        injection h1 with h2 h3
        have hitem := renderPage_item s p pa pb item hp
        have hits2 := ih ws2 its2 hr
        rw [List.filterMap_cons, ← h3, hitem, hits2]
        cases pageFeedItem p <;> simp [Option.toList]

theorem filterMap_pageFeedItem (l : List Page) :
    l.filterMap pageFeedItem =
      (l.filter (fun p => p.date.getD 0 != 0)).map (fun p =>
        ({ title := p.title, link := p.url, description := p.description,
           author := p.author, created := p.date.getD 0 } : FeedItem)) := by
  induction l with
  | nil => rfl
  | cons p rest ih =>
    by_cases hd : p.date.getD 0 = 0
    · simp [List.filterMap_cons, List.filter_cons, pageFeedItem, hd, ih]
    · simp [List.filterMap_cons, List.filter_cons, pageFeedItem, hd, ih]

theorem datesSorted_pairwise (l : List Page) (h : datesSorted l = true) :
    l.Pairwise (fun a b => a.date.getD 0 ≤ b.date.getD 0) := by
  haveI : IsTrans Page (fun a b => a.date.getD 0 ≤ b.date.getD 0) :=
    ⟨fun _ _ _ hab hbc => le_trans hab hbc⟩
  rw [← List.chain'_iff_pairwise]
  induction l with
  | nil => exact List.chain'_nil
  | cons a rest ih =>
    cases rest with
    | nil => exact List.chain'_singleton a
    | cons b rest2 =>
      unfold datesSorted at h
      rw [Bool.and_eq_true] at h
      exact List.chain'_cons.mpr ⟨of_decide_eq_true h.1, ih h.2⟩

/-! ## Helper lemmas about scanning -/

theorem readLoop_posts (entries : List SrcEntry) (s : Site) (skips layouts : List String)
    (s' : Site) (l' : List String)
    (h : Site.readLoop s skips layouts entries = (s', l', none)) :
    s'.posts = (walkPosts (permalinkOf s.Conf) skips entries).reverse ++ s.posts := by
  induction entries generalizing s skips layouts with
  | nil =>
    unfold Site.readLoop at h
    injection h with h1 h2
    subst h1
    simp [walkPosts]
  | cons e rest ih =>
    unfold Site.readLoop at h
    unfold walkPosts
    by_cases h1 : skips.any (fun d => underDir d e.rel)
    · simp only [h1, if_true] at h ⊢
      exact ih s skips layouts h
    · simp only [h1, Bool.false_eq_true, if_false] at h ⊢
      by_cases h2 : e.isDir && isHiddenOrTemp e.rel
      · simp only [h2, if_true] at h ⊢
        exact ih s (skips ++ [e.rel]) layouts h
      · simp only [h2, Bool.false_eq_true, if_false] at h ⊢
        by_cases h3 : e.isDir
        · simp only [h3, if_true] at h ⊢
          exact ih s skips layouts h
        · simp only [h3, Bool.false_eq_true, if_false] at h ⊢
          by_cases h4 : isHiddenOrTemp e.rel
          · simp only [h4, if_true] at h ⊢
            exact ih s skips layouts h
          · simp only [h4, Bool.false_eq_true, if_false] at h ⊢
            by_cases h5 : isTemplate e.rel
            · simp only [h5, if_true] at h ⊢
              exact ih s skips (layouts ++ [e.rel]) h
            · simp only [h5, Bool.false_eq_true, if_false] at h ⊢
              by_cases h6 : isPost e.rel
              · simp only [h6, if_true] at h ⊢
                cases hp : parsePost e.rel (permalinkOf s.Conf) e.fm with
                | error m =>
                  rw [hp] at h
                  injection h with ha hb
                  injection hb with hc hd
                  exact absurd hd (by simp)
                | ok post =>
                  rw [hp] at h
                  have := ih { s with posts := post :: s.posts } skips layouts h
                  rw [this]
                  simp [List.reverse_cons]
              · simp only [h6, Bool.false_eq_true, if_false] at h ⊢
                by_cases h7 : isPage e.rel
                · simp only [h7, if_true] at h ⊢
                  cases hp : parsePage e.rel e.fm with
                  | error m =>
                    rw [hp] at h
                    injection h with ha hb
                    injection hb with hc hd
                    exact absurd hd (by simp)
                  | ok page =>
                    rw [hp] at h
                    exact ih { s with pages := s.pages ++ [page] } skips layouts h
                · simp only [h7, Bool.false_eq_true, if_false] at h ⊢
                  exact ih { s with files := s.files ++ [e.rel] } skips layouts h

theorem read_posts (s : Site) (t : SrcTree) (now : Nat) (sx : Site)
    (h : s.read t now = (sx, none)) :
    sx.posts = (walkPosts (permalinkOf s.Conf) [] t.entries).reverse ++ s.posts := by
  unfold Site.read at h
  cases hrl : Site.readLoop s [] [] t.entries with
  | mk s1 pair =>
    obtain ⟨lay, err⟩ := pair
    rw [hrl] at h
    cases err with
    | some e =>
      dsimp only at h
      injection h with ha hb
      exact absurd hb (by simp)
    | none =>
      dsimp only at h
      cases hcomp : (if lay.length > 0 then (t.compile lay).map some
                     else .ok s1.templ : Except String (Option TemplateSet)) with
      | error e =>
        rw [hcomp] at h
        dsimp only at h
        injection h with ha hb
        exact absurd hb (by simp)
      | ok tm =>
        rw [hcomp] at h
        dsimp only at h
        injection h with ha hb
        have hposts : sx.posts = s1.posts := by
          rw [← ha]
          rfl
        rw [hposts]
        exact readLoop_posts t.entries s [] [] s1 lay hrl

/-! ## Helper lemmas about Deploy -/

theorem deployRun_cons_put1 (f : UploadFile) (rest : List UploadFile)
    (h0 : f.readErr = none) (h1 : f.put1 = true) :
    deployRun (f :: rest) = (.put f.rel :: (deployRun rest).1, (deployRun rest).2) := by
  conv_lhs => unfold deployRun
  rw [h0]
  simp [h1]

theorem deployRun_cons_retry (f : UploadFile) (rest : List UploadFile)
    (h0 : f.readErr = none) (h1 : f.put1 = false) (h2 : f.put2 = true) :
    deployRun (f :: rest) =
      (.put f.rel :: .sleep :: .put f.rel :: (deployRun rest).1, (deployRun rest).2) := by
  conv_lhs => unfold deployRun
  rw [h0]
  simp [h1, h2]

theorem deployRun_cons_fatal (f : UploadFile) (rest : List UploadFile)
    (h0 : f.readErr = none) (h1 : f.put1 = false) (h2 : f.put2 = false) :
    deployRun (f :: rest) = ([.put f.rel, .sleep, .put f.rel], some f.putErr) := by
  conv_lhs => unfold deployRun
  rw [h0]
  simp [h1, h2]

theorem deployRun_trace_mem (files : List UploadFile) :
    ∀ e ∈ (deployRun files).1, e = DeployEvent.sleep ∨ ∃ f ∈ files, e = .put f.rel := by
  induction files with
  | nil => intro e he; simp [deployRun] at he
  | cons f rest ih =>
    intro e he
    unfold deployRun at he
    cases hre : f.readErr with
    | some msg => rw [hre] at he; simp at he
    | none =>
      rw [hre] at he
      by_cases h1 : f.put1
      · simp only [h1, if_true] at he
        rcases List.mem_cons.mp he with h | h
        · exact Or.inr ⟨f, List.mem_cons_self f rest, h⟩
        · rcases ih e h with hs | ⟨g, hg, hp⟩
          · exact Or.inl hs
          · exact Or.inr ⟨g, List.mem_cons_of_mem f hg, hp⟩
      · simp only [h1, Bool.false_eq_true, if_false] at he
        by_cases h2 : f.put2
        · simp only [h2, if_true] at he
          rcases List.mem_cons.mp he with h | h
          · exact Or.inr ⟨f, List.mem_cons_self f rest, h⟩
          · rcases List.mem_cons.mp h with h | h
            · exact Or.inl h
            · rcases List.mem_cons.mp h with h | h
              · exact Or.inr ⟨f, List.mem_cons_self f rest, h⟩
              · rcases ih e h with hs | ⟨g, hg, hp⟩
                · exact Or.inl hs
                · exact Or.inr ⟨g, List.mem_cons_of_mem f hg, hp⟩
        · simp only [h2, Bool.false_eq_true, if_false] at he
          rcases List.mem_cons.mp he with h | h
          · exact Or.inr ⟨f, List.mem_cons_self f rest, h⟩
          · rcases List.mem_cons.mp h with h | h
            · exact Or.inl h
            · rcases List.mem_cons.mp h with h | h
              · exact Or.inr ⟨f, List.mem_cons_self f rest, h⟩
              · simp at h

theorem putCount_deployRun_zero (files : List UploadFile) (rel : String)
    (h : rel ∉ files.map (fun f => f.rel)) : putCount (deployRun files).1 rel = 0 := by
  rw [putCount, List.countP_eq_zero]
  intro e he
  rcases deployRun_trace_mem files e he with h1 | ⟨f, hf, h2⟩
  · subst h1; simp
  · subst h2
    have : f.rel ≠ rel := by
      intro hc
      exact h (hc ▸ List.mem_map_of_mem (fun f => f.rel) hf)
    simp [this]

/-! ## Claim theorems -/

/-- C1, counterexample: a Site holding one committed post runs a
watch-triggered Reload over a tree whose post file has malformed front
matter; Reload returns an error, yet the post list afterwards is empty — the
previously committed ContentStore is NOT left untouched, because Reload
clears the store before re-scanning. -/
theorem C1_reload_error_counterexample :
    ((siteC1.Reload treeC1 0).2).isSome = true ∧
    (siteC1.Reload treeC1 0).1.posts ≠ siteC1.posts := by
  decide

/-- C1, amended: a failing Reload does not preserve the previously committed
state — it discards it entirely before re-scanning.  Precisely, Reload's
result (state and error alike) is independent of the prior posts, pages,
static files and templates: two sites agreeing on everything else Reload
identically. -/
theorem C1_reload_discards_previous_state (s sx : Site) (t : SrcTree) (now : Nat)
    (h1 : s.Src = sx.Src) (h2 : s.Dest = sx.Dest) (h3 : s.Conf = sx.Conf)
    (h4 : s.ignore = sx.ignore) :
    s.Reload t now = sx.Reload t now := by
  unfold Site.Reload
  have hs : ({ s with posts := [], pages := [], files := [], templ := none } : Site)
      = { sx with posts := [], pages := [], files := [], templ := none } := by
    cases s
    cases sx
    simp_all
  rw [hs]

/-- C1, witness: the amended theorem applied to `siteC1` (one committed post)
and the same site with its content cleared. -/
theorem C1_reload_discards_previous_state_witness :
    siteC1.Reload treeC1 0 = siteC1b.Reload treeC1 0 :=
  C1_reload_discards_previous_state siteC1 siteC1b treeC1 0 rfl rfl rfl rfl

/-- C2, code bug: a markdown page whose front-matter layout `missing` is not
in the compiled template set.  The source discards the error of
`s.templ.ExecuteTemplate(&buf, layout, data)`, so instead of failing,
writePages writes the page file with the empty buffer and the whole run
succeeds — the claim (and the spec) say a missing layout is a fatal error
for that item. -/
theorem C2_missing_layout_written_silently :
    (siteC2.writePages 7 fsC2).isOk = true ∧
    (siteC2.writePages 7 fsC2).lookup? ["p.html"] = some "" := by
  decide

/-- C3, counterexample: the same Site generated twice in a row (clock values
0 and 1, unchanged ContentStore); both runs succeed but the feed file
`atom.xml` differs between the runs, because the feed embeds `time.Now()` as
its Created timestamp — the destination trees are not byte-identical. -/
theorem C3_feed_not_identical_counterexample :
    (siteC3.Generate srcEmpty fsC3 0).isOk = true ∧
    (siteC3.Generate srcEmpty ((siteC3.Generate srcEmpty fsC3 0).fsOrEmpty) 1).isOk = true ∧
    (siteC3.Generate srcEmpty ((siteC3.Generate srcEmpty fsC3 0).fsOrEmpty) 1).lookup?
        ["atom.xml"] ≠
      (siteC3.Generate srcEmpty fsC3 0).lookup? ["atom.xml"] := by
  decide

/-- C4, code bug, evaluated at the failing input: with no destination-ignore
list configured (nil slice) and a pre-existing destination file, `Site.prep`
first creates the destination root (`os.MkdirAll`) and then deletes it whole
(`os.RemoveAll(s.Dest)`) — after prep the destination root does NOT exist,
whereas the claim (and the spec) say it is recreated empty. -/
theorem C4_prep_nil_ignore_removes_root :
    (siteC4.prep fsC4).rootExists = false ∧ (siteC4.prep fsC4).files = [] := by
  decide

/-- C5, counterexample: ignore list `["a/b"]` and a pre-existing destination
file `a/b`.  Its root-relative path matches the ignore prefix `a/b`, yet a
successful Generate deletes it: the walker reaches the non-matching parent
directory `a` first and removes it recursively, so the matching entry does
not survive. -/
theorem C5_matching_entry_not_preserved_counterexample :
    siteC5.matchIgnore "a/b" = true ∧
    (siteC5.Generate srcEmpty fsC5 3).isOk = true ∧
    (siteC5.Generate srcEmpty fsC5 3).lookup? ["a", "b"] = none := by
  decide

/-- C9, counterexample: ignore entry `x/y` and a destination file `x/y`.
The entry's relative path begins with the ignore entry as a character
prefix (`matchIgnore` returns true), yet the destination-sync step deletes
it, because its parent directory `x` does not match and is removed whole —
so a prefix-matching entry is not always preserved. -/
theorem C9_prefix_match_not_preserved_counterexample :
    siteC9.matchIgnore "x/y" = true ∧
    lookupFS (siteC9.prep fsC9) ["x", "y"] = none := by
  decide

/-- C10: when the scan found no templates (`templ` is nil) and a markdown
page names a layout other than empty or the `nil` sentinel, writePages calls
`ExecuteTemplate` on the nil template set and panics (nil-pointer
dereference) instead of returning an error; the nil-template guard sits only
in the non-markdown body-expansion path. -/
theorem C10_nil_template_panic (s : Site) (now : Nat) (fs : DestFS) (p : Page)
    (rest : List Page) (hpages : s.pages = p :: rest) (htempl : s.templ = none)
    (hmd : isMarkdown p.ext = true) (hl1 : p.layout ≠ "") (hl2 : p.layout ≠ "nil") :
    s.writePages now fs = .panicNilDeref := by
  have hrp : s.renderPage p = .panic := by
    unfold Site.renderPage
    simp [hmd, htempl, beq_iff_eq, hl1, hl2]
  have hra : s.renderAll (s.pages ++ s.posts) = .panic := by
    rw [hpages]
    show s.renderAll (p :: (rest ++ s.posts)) = .panic
    unfold Site.renderAll
    rw [hrp]
  unfold Site.writePages
  rw [hra]

/-- C10, witness: a concrete site with a nil template set and a markdown page
whose layout is `default`; writePages panics. -/
theorem C10_nil_template_panic_witness :
    siteW10.writePages 2 fsC2 = .panicNilDeref :=
  C10_nil_template_panic siteW10 2 fsC2 pageW10 [] rfl rfl (by decide)
    (by decide) (by decide)

/-- C3, amended: Generate twice in a row on an unchanged ContentStore produces
destination trees that are byte-identical at every path except the feed file
`atom.xml`, which embeds the generation timestamp and agrees exactly when the
two runs read the same clock value. -/
theorem C3_generate_idempotent_except_feed (s : Site) (src : String → String)
    (fs fs1 fs2 : DestFS) (t1 t2 : Nat)
    (h1 : s.Generate src fs t1 = .ok fs1) (h2 : s.Generate src fs1 t2 = .ok fs2) :
    (∀ p, p ≠ ["atom.xml"] → lookupFS fs2 p = lookupFS fs1 p) ∧
    (t1 = t2 → ∀ p, lookupFS fs2 p = lookupFS fs1 p) ∧
    fs2.rootExists = fs1.rootExists := by
  obtain ⟨ws, items, hra, hroot1, hfs1⟩ := generate_ok_elim s src fs t1 fs1 h1
  obtain ⟨ws2, items2, hra2, hroot2, hfs2⟩ := generate_ok_elim s src fs1 t2 fs2 h2
  rw [hra] at hra2
  injection hra2 with hpair
  injection hpair with hws hitems
  subst hws
  subst hitems
  have l1 : ∀ q, lookupFS fs1 q =
      (match writesLookup (s.files.map (fun rel => (pathOf rel, src rel))) q with
       | some c => some c
       | none =>
         if q = ["atom.xml"] then some (feedToAtom (s.feedOf t1 items)) else
           match writesLookup ws q with
           | some c => some c
           | none => if s.keepQ q then lookupFS fs q else none) := by
    intro q
    rw [hfs1, lookupFS_applyWrites]
    cases hsw : writesLookup (s.files.map (fun rel => (pathOf rel, src rel))) q with
    | some c => simp
    | none =>
      simp only
      show lookupL (upsertL (applyWrites (s.prep fs) ws).files ["atom.xml"]
        (feedToAtom (s.feedOf t1 items))) q = _
      rw [lookupL_upsertL]
      by_cases hq : q = ["atom.xml"]
      · simp [hq]
      · rw [if_neg hq, if_neg hq]
        show lookupFS (applyWrites (s.prep fs) ws) q = _
        rw [lookupFS_applyWrites, lookupFS_prep]
  have l2 : ∀ q, lookupFS fs2 q =
      (match writesLookup (s.files.map (fun rel => (pathOf rel, src rel))) q with
       | some c => some c
       | none =>
         if q = ["atom.xml"] then some (feedToAtom (s.feedOf t2 items)) else
           match writesLookup ws q with
           | some c => some c
           | none => if s.keepQ q then lookupFS fs1 q else none) := by
    intro q
    rw [hfs2, lookupFS_applyWrites]
    cases hsw : writesLookup (s.files.map (fun rel => (pathOf rel, src rel))) q with
    | some c => simp
    | none =>
      simp only
      show lookupL (upsertL (applyWrites (s.prep fs1) ws).files ["atom.xml"]
        (feedToAtom (s.feedOf t2 items))) q = _
      rw [lookupL_upsertL]
      by_cases hq : q = ["atom.xml"]
      · simp [hq]
      · rw [if_neg hq, if_neg hq]
        show lookupFS (applyWrites (s.prep fs1) ws) q = _
        rw [lookupFS_applyWrites, lookupFS_prep]
  have conj1 : ∀ p, p ≠ ["atom.xml"] → lookupFS fs2 p = lookupFS fs1 p := by
    intro p hp
    rw [l2 p]
    cases hsw : writesLookup (s.files.map (fun rel => (pathOf rel, src rel))) p with
    | some c => rw [l1 p, hsw]
    | none =>
      simp only
      rw [if_neg hp]
      cases hww : writesLookup ws p with
      | some c => rw [l1 p, hsw]; simp only [if_neg hp, hww]
      | none =>
        simp only
        by_cases hk : s.keepQ p
        · simp [hk]
        · rw [l1 p, hsw]
          simp only [if_neg hp, hww]
          simp [hk]
  refine ⟨conj1, ?_, ?_⟩
  · intro ht p
    by_cases hp : p = ["atom.xml"]
    · subst hp
      subst ht
      rw [l2 ["atom.xml"]]
      cases hsw : writesLookup (s.files.map (fun rel => (pathOf rel, src rel))) ["atom.xml"] with
      | some c => rw [l1 ["atom.xml"], hsw]
      | none =>
        rw [l1 ["atom.xml"], hsw]
        simp
    · exact conj1 p hp
  · have r1 : fs1.rootExists = true := by
      rw [hfs1]
      exact rootExists_applyWrites _ _ hroot1
    have r2 : fs2.rootExists = true := by
      rw [hfs2]
      exact rootExists_applyWrites _ _ hroot2
    rw [r1, r2]

/-- C3, witness: the amended theorem applied to a concrete site at equal
clock values; the two successful runs agree at a sample path. -/
theorem C3_generate_idempotent_except_feed_witness :
    lookupFS ((siteC3.Generate srcEmpty ((siteC3.Generate srcEmpty fsC3 5).fsOrEmpty) 5).fsOrEmpty)
        ["stale.html"] =
      lookupFS ((siteC3.Generate srcEmpty fsC3 5).fsOrEmpty) ["stale.html"] :=
  (C3_generate_idempotent_except_feed siteC3 srcEmpty fsC3
      ((siteC3.Generate srcEmpty fsC3 5).fsOrEmpty)
      ((siteC3.Generate srcEmpty ((siteC3.Generate srcEmpty fsC3 5).fsOrEmpty) 5).fsOrEmpty)
      5 5 (by decide) (by decide)).1 ["stale.html"] (by decide)

/-- C5, amended: with a configured ignore list, a pre-existing destination
entry that is neither rewritten by the current pass nor the feed file
survives a successful Generate with unchanged contents exactly when the prep
walker keeps it — that is, when the top-level component of its path matches
an ignore prefix (for a top-level entry, when the entry itself matches); and
every entry whose relative path does not match any ignore prefix is absent
afterwards.  (The unamended claim fails only for an entry that matches an
ignore prefix while its parent directory does not, which the counterexample
exhibits.) -/
theorem C5_destination_sync_frame (s : Site) (src : String → String)
    (fs fs' : DestFS) (t : Nat) (ign : List String)
    (hign : s.ignore = some ign) (hg : s.Generate src fs t = .ok fs')
    (p : List String) (hw : p ∉ s.genPaths) (ha : p ≠ ["atom.xml"]) :
    (s.prepKeeps p = true → lookupFS fs' p = lookupFS fs p) ∧
    (s.matchIgnore (relOf p) = false → lookupFS fs' p = none) := by
  obtain ⟨ws, items, hra, hroot, hfs⟩ := generate_ok_elim s src fs t fs' hg
  have hgen : s.genPaths = ws.map (fun w => w.1) ++ s.files.map pathOf := by
    unfold Site.genPaths
    rw [hra]
  rw [hgen] at hw
  simp only [List.mem_append, not_or] at hw
  have hws : writesLookup ws p = none := writesLookup_eq_none _ _ hw.1
  have hsws : writesLookup (s.files.map (fun rel => (pathOf rel, src rel))) p = none := by
    apply writesLookup_eq_none
    intro hc
    rw [List.map_map] at hc
    exact hw.2 (by simpa using hc)
  have hlook : lookupFS fs' p = if s.keepQ p then lookupFS fs p else none := by
    rw [hfs, lookupFS_applyWrites, hsws]
    simp only
    show lookupL (upsertL (applyWrites (s.prep fs) ws).files ["atom.xml"]
      (feedToAtom (s.feedOf t items))) p = _
    rw [lookupL_upsertL, if_neg ha]
    show lookupFS (applyWrites (s.prep fs) ws) p = _
    rw [lookupFS_applyWrites, hws]
    simp only
    rw [lookupFS_prep]
  constructor
  · intro hk
    rw [hlook]
    unfold Site.keepQ
    rw [hign]
    simp [hk]
  · intro hm
    have hk : s.prepKeeps p = false := by
      cases hkk : s.prepKeeps p with
      | false => rfl
      | true => exact absurd (prepKeeps_matchIgnore s p hkk) (by simp [hm])
    rw [hlook]
    unfold Site.keepQ
    rw [hign]
    simp [hk]

/-- C5, witness: scenario B — ignore list `[".git"]`, destination
pre-populated with `.git/config` and `stale.html`, nothing rendered to those
paths; after a successful Generate, `.git/config` survives with its contents
and `stale.html` is gone. -/
theorem C5_destination_sync_frame_witness :
    lookupFS ((siteW5.Generate srcEmpty fsW5 4).fsOrEmpty) [".git", "config"] =
        lookupFS fsW5 [".git", "config"] ∧
    lookupFS ((siteW5.Generate srcEmpty fsW5 4).fsOrEmpty) ["stale.html"] = none :=
  ⟨(C5_destination_sync_frame siteW5 srcEmpty fsW5
      ((siteW5.Generate srcEmpty fsW5 4).fsOrEmpty) 4 [".git"] rfl (by decide)
      [".git", "config"] (by decide) (by decide)).1 (by decide),
   (C5_destination_sync_frame siteW5 srcEmpty fsW5
      ((siteW5.Generate srcEmpty fsW5 4).fsOrEmpty) 4 [".git"] rfl (by decide)
      ["stale.html"] (by decide) (by decide)).2 (by decide)⟩

/-- C9, amended: destination-ignore matching is plain string-prefix matching
on the root-relative path — `matchIgnore rel` holds exactly when some ignore
entry is a character prefix of `rel` — and a matching entry is preserved by
the destination-sync step whenever the top-level component of its path
itself matches (always the case for a top-level entry such as `.gitfoo`
under ignore entry `.git`); a matching entry below a non-matching parent
directory is instead deleted with that parent, as the counterexample shows. -/
theorem C9_prefix_matching_and_preservation (s : Site) (ign : List String)
    (hign : s.ignore = some ign) (fs : DestFS) (c : String) (rest : List String)
    (hroot : c ≠ ".") :
    (s.matchIgnore c = true ↔ ∃ i ∈ ign, i.data <+: c.data) ∧
    (s.matchIgnore c = true →
      lookupFS (s.prep fs) (c :: rest) = lookupFS fs (c :: rest)) := by
  constructor
  · unfold Site.matchIgnore hasPrefixS
    rw [hign]
    simp only [Option.getD_some, List.any_eq_true]
    constructor
    · rintro ⟨i, hi, hp⟩
      exact ⟨i, hi, List.isPrefixOf_iff_prefix.mp hp⟩
    · rintro ⟨i, hi, hp⟩
      exact ⟨i, hi, List.isPrefixOf_iff_prefix.mpr hp⟩
  · intro hm
    have hkeep : s.prepKeeps (c :: rest) = true := by
      cases rest with
      | nil =>
        unfold Site.prepKeeps Site.prepWalker
        simp [beq_iff_eq, hroot, hm]
      | cons d rest2 =>
        unfold Site.prepKeeps Site.prepWalker
        simp [beq_iff_eq, hroot, hm]
    rw [lookupFS_prep]
    unfold Site.keepQ
    rw [hign]
    simp [hkeep]

/-- C9, witness: ignore list `[".git"]` and a top-level destination entry
`.gitfoo` — a character-prefix match that is not a path-component match —
is treated as protected and survives the destination-sync step. -/
theorem C9_prefix_matching_and_preservation_witness :
    siteW9.matchIgnore ".gitfoo" = true ∧
    lookupFS (siteW9.prep fsW9) [".gitfoo"] = lookupFS fsW9 [".gitfoo"] :=
  ⟨(C9_prefix_matching_and_preservation siteW9 [".git"] rfl fsW9 ".gitfoo" []
      (by decide)).1.mpr ⟨".git", by decide, by decide⟩,
   (C9_prefix_matching_and_preservation siteW9 [".git"] rfl fsW9 ".gitfoo" []
      (by decide)).2 (by decide)⟩

/-- C6: the generated feed contains exactly one entry per post with a
non-zero resolved date, in post-list order, and no entry for any other item:
for a site whose pages carry no date field (ParsePage, modelled from the
spec, never sets one — only posts carry dates), a successful writePages
writes to `atom.xml` the serialization of precisely the dated posts' entries
in the order of the post list. -/
theorem C6_feed_entries (s : Site) (now : Nat) (fs : DestFS) (fs' : DestFS)
    (hpages : ∀ p ∈ s.pages, p.date = none)
    (hw : s.writePages now fs = .ok fs') :
    lookupFS fs' ["atom.xml"] =
      some (feedToAtom (s.feedOf now
        ((s.posts.filter (fun p => p.date.getD 0 != 0)).map (fun p =>
          ({ title := p.title, link := p.url, description := p.description,
             author := p.author, created := p.date.getD 0 } : FeedItem))))) := by
  unfold Site.writePages at hw
  cases hra : s.renderAll (s.pages ++ s.posts) with
  | panic => rw [hra] at hw; exact absurd hw (by simp)
  | err m => rw [hra] at hw; exact absurd hw (by simp)
  | ok pair =>
    obtain ⟨ws, items⟩ := pair
    rw [hra] at hw
    by_cases hroot : (applyWrites fs ws).rootExists = true
    · simp only [hroot, if_true] at hw
      injection hw with h2
      rw [← h2]
      show lookupL (upsertL (applyWrites fs ws).files ["atom.xml"]
        (feedToAtom (s.feedOf now items))) ["atom.xml"] = _
      rw [lookupL_upsertL, if_pos rfl]
      have hitems : items = (s.pages ++ s.posts).filterMap pageFeedItem :=
        renderAll_items s _ ws items hra
      have hpnil : s.pages.filterMap pageFeedItem = [] :=
        List.filterMap_eq_nil_iff.mpr (fun p hp => by simp [pageFeedItem, hpages p hp])
      rw [hitems, List.filterMap_append, hpnil, List.nil_append, filterMap_pageFeedItem]
    · simp only [Bool.not_eq_true] at hroot
      simp [hroot] at hw

/-- C6, witness: a site with one dated post, one dateless post-list item and
one dateless page; the feed holds exactly the dated post's entry. -/
theorem C6_feed_entries_witness :
    lookupFS ((siteW6.writePages 9 fsW6).fsOrEmpty) ["atom.xml"] =
      some (feedToAtom (siteW6.feedOf 9
        ((siteW6.posts.filter (fun p => p.date.getD 0 != 0)).map (fun p =>
          ({ title := p.title, link := p.url, description := p.description,
             author := p.author, created := p.date.getD 0 } : FeedItem))))) :=
  C6_feed_entries siteW6 9 fsW6 ((siteW6.writePages 9 fsW6).fsOrEmpty)
    (by decide) (by decide)

/-- C7, counterexample: a source tree holding posts in two sibling
directories, the lexicographically earlier directory holding the LATER-dated
post.  The scan succeeds, yet the committed post list is not
reverse-chronological: the 2021 post sits after the 2020 post, refuting the
claim at this input. -/
theorem C7_reverse_chronological_counterexample :
    ¬ (∀ (i j : Fin postsC7.length),
        (postsC7.get i).date.getD 0 > (postsC7.get j).date.getD 0 →
          (i : Nat) < (j : Nat)) := by
  decide

/-- C7, amended: after a successful scan of a site with an empty post list,
the committed post list is exactly the REVERSE of the walk-order post
sequence (posts are prepended as the walk visits them); consequently the
reverse-chronological property of the claim holds exactly under the source's
tacit assumption that the lexicographic walk visits post files in
nondecreasing date order (as it does when all posts sit in one directory
with zero-padded date-prefixed names). -/
theorem C7_posts_reverse_walk_order (s : Site) (t : SrcTree) (now : Nat) (sx : Site)
    (hempty : s.posts = []) (h : s.read t now = (sx, none))
    (hsorted : datesSorted (walkPosts (permalinkOf s.Conf) [] t.entries) = true) :
    sx.posts = (walkPosts (permalinkOf s.Conf) [] t.entries).reverse ∧
    ∀ (i j : Fin sx.posts.length),
      (sx.posts.get i).date.getD 0 > (sx.posts.get j).date.getD 0 →
        (i : Nat) < (j : Nat) := by
  have hp := read_posts s t now sx h
  rw [hempty, List.append_nil] at hp
  refine ⟨hp, ?_⟩
  have hpw := datesSorted_pairwise _ hsorted
  have hrev : sx.posts.Pairwise (fun a b => b.date.getD 0 ≤ a.date.getD 0) := by
    rw [hp, List.pairwise_reverse]
    exact hpw
  intro i j hgt
  rcases Nat.lt_trichotomy (i : Nat) (j : Nat) with hlt | heq | hgt2
  · exact hlt
  · exfalso
    have hij : i = j := Fin.ext heq
    subst hij
    exact lt_irrefl _ hgt
  · exfalso
    have hle := (List.pairwise_iff_get.mp hrev) j i hgt2
    exact absurd hgt (not_lt.mpr hle)

/-- C7, witness: two posts in one directory visited in ascending date order;
the committed list is the reverse of the walk order (most recent first). -/
theorem C7_posts_reverse_walk_order_witness :
    (siteC7.read treeW7 0).1.posts =
      (walkPosts (permalinkOf siteC7.Conf) [] treeW7.entries).reverse :=
  (C7_posts_reverse_walk_order siteC7 treeW7 0 ((siteC7.read treeW7 0).1) rfl
    (by
      have h2 : (siteC7.read treeW7 0).2 = none := by decide
      rw [← h2])
    (by decide)).1

theorem putCount_cons_put_self (tr : List DeployEvent) (rel : String) :
    putCount (.put rel :: tr) rel = putCount tr rel + 1 := by
  simp [putCount, List.countP_cons]

theorem putCount_cons_put_ne (tr : List DeployEvent) (rel rel2 : String)
    (h : rel ≠ rel2) : putCount (.put rel :: tr) rel2 = putCount tr rel2 := by
  simp [putCount, List.countP_cons, h]

theorem putCount_cons_sleep (tr : List DeployEvent) (rel : String) :
    putCount (.sleep :: tr) rel = putCount tr rel := by
  simp [putCount, List.countP_cons]

theorem sleepCount_cons_put (tr : List DeployEvent) (rel : String) :
    sleepCount (.put rel :: tr) = sleepCount tr := by
  simp [sleepCount, List.countP_cons]

theorem sleepCount_cons_sleep (tr : List DeployEvent) :
    sleepCount (.sleep :: tr) = sleepCount tr + 1 := by
  simp [sleepCount, List.countP_cons]

/-- C8: Deploy's retry policy.  For destination files with distinct relative
paths and readable contents: if every file's upload succeeds on the first or
the retried attempt, Deploy succeeds and each file was attempted once (first
try succeeded) or exactly twice (one retry); otherwise Deploy aborts with
the error of the FIRST file whose retry also failed — that file got exactly
its two attempts, files before it were processed normally, and no file after
it was attempted at all.  In both cases the number of backoff sleeps equals
the number of processed files that needed a retry: a failing upload is
retried exactly once, after a backoff. -/
theorem C8_deploy_retry_policy (files : List UploadFile)
    (hnodup : (files.map (fun f => f.rel)).Nodup)
    (hread : ∀ f ∈ files, f.readErr = none) :
    (match firstFatalIdx files with
     | none =>
        (deployRun files).2 = none ∧
        ∀ (i : Fin files.length),
          putCount (deployRun files).1 (files.get i).rel =
            (if (files.get i).put1 then 1 else 2)
     | some k =>
        ∃ hk : k < files.length,
          (deployRun files).2 = some (files.get ⟨k, hk⟩).putErr ∧
          putCount (deployRun files).1 (files.get ⟨k, hk⟩).rel = 2 ∧
          (∀ (i : Fin files.length), (i : Nat) < k →
            putCount (deployRun files).1 (files.get i).rel =
              (if (files.get i).put1 then 1 else 2)) ∧
          (∀ (i : Fin files.length), k < (i : Nat) →
            putCount (deployRun files).1 (files.get i).rel = 0)) ∧
    sleepCount (deployRun files).1 =
      ((files.take ((firstFatalIdx files).getD files.length + 1)).filter
        (fun f => !f.put1)).length := by
  induction files with
  | nil =>
    refine ⟨?_, ?_⟩
    · show (deployRun []).2 = none ∧ _
      exact ⟨rfl, fun i => i.elim0⟩
    · rfl
  | cons f rest ih =>
    have hf0 : f.readErr = none := hread f (List.mem_cons_self f rest)
    have hreadr : ∀ g ∈ rest, g.readErr = none :=
      fun g hg => hread g (List.mem_cons_of_mem f hg)
    rw [List.map_cons, List.nodup_cons] at hnodup
    obtain ⟨hfnotin, hnodupr⟩ := hnodup
    have IH := ih hnodupr hreadr
    have hcount0 : putCount (deployRun rest).1 f.rel = 0 :=
      putCount_deployRun_zero rest f.rel hfnotin
    have hrelne : ∀ (j : Fin rest.length), f.rel ≠ (rest.get j).rel := by
      intro j hc
      exact hfnotin (hc ▸ List.mem_map_of_mem (fun g => g.rel) (rest.get_mem j.1 j.2))
    by_cases hput1 : f.put1 = true
    · -- first attempt succeeds: one put, then the rest
      have hD := deployRun_cons_put1 f rest hf0 hput1
      have hFF : firstFatalIdx (f :: rest) = (firstFatalIdx rest).map (fun k => k + 1) := by
        show (if !f.put1 && !f.put2 then some 0
              else (firstFatalIdx rest).map (fun k => k + 1)) = _
        simp [hput1]
      rw [hD, hFF]
      cases hFFr : firstFatalIdx rest with
      | none =>
        rw [hFFr] at IH
        obtain ⟨⟨hres, hcnt⟩, hsleep⟩ := IH
        refine ⟨⟨hres, ?_⟩, ?_⟩
        · rintro ⟨iv, hi⟩
          cases iv with
          | zero =>
            show putCount (.put f.rel :: (deployRun rest).1) f.rel = if f.put1 then 1 else 2
            rw [putCount_cons_put_self, hcount0, hput1]
            rfl
          | succ j =>
            have hj : j < rest.length := Nat.lt_of_succ_lt_succ hi
            show putCount (.put f.rel :: (deployRun rest).1) (rest.get ⟨j, hj⟩).rel =
              if (rest.get ⟨j, hj⟩).put1 then 1 else 2
            rw [putCount_cons_put_ne _ _ _ (hrelne ⟨j, hj⟩)]
            exact hcnt ⟨j, hj⟩
        · rw [sleepCount_cons_put, hsleep]
          simp only [Option.map_none', Option.getD_none, List.length_cons]
          rw [List.take_succ_cons]
          simp [List.filter_cons, hput1]
      | some k =>
        rw [hFFr] at IH
        obtain ⟨⟨hk, hres, hcnt2, hlow, hhigh⟩, hsleep⟩ := IH
        refine ⟨⟨Nat.succ_lt_succ hk, hres, ?_, ?_, ?_⟩, ?_⟩
        · show putCount (.put f.rel :: (deployRun rest).1) (rest.get ⟨k, hk⟩).rel = 2
          rw [putCount_cons_put_ne _ _ _ (hrelne ⟨k, hk⟩)]
          exact hcnt2
        · rintro ⟨iv, hi⟩ hlt
          cases iv with
          | zero =>
            show putCount (.put f.rel :: (deployRun rest).1) f.rel = if f.put1 then 1 else 2
            rw [putCount_cons_put_self, hcount0, hput1]
            rfl
          | succ j =>
            have hj : j < rest.length := Nat.lt_of_succ_lt_succ hi
            show putCount (.put f.rel :: (deployRun rest).1) (rest.get ⟨j, hj⟩).rel =
              if (rest.get ⟨j, hj⟩).put1 then 1 else 2
            rw [putCount_cons_put_ne _ _ _ (hrelne ⟨j, hj⟩)]
            exact hlow ⟨j, hj⟩ (Nat.lt_of_succ_lt_succ hlt)
        · rintro ⟨iv, hi⟩ hlt
          cases iv with
          | zero => exact absurd hlt (Nat.not_lt_zero _)
          | succ j =>
            have hj : j < rest.length := Nat.lt_of_succ_lt_succ hi
            show putCount (.put f.rel :: (deployRun rest).1) (rest.get ⟨j, hj⟩).rel = 0
            rw [putCount_cons_put_ne _ _ _ (hrelne ⟨j, hj⟩)]
            exact hhigh ⟨j, hj⟩ (Nat.lt_of_succ_lt_succ hlt)
        · rw [sleepCount_cons_put, hsleep]
          simp only [Option.map_some', Option.getD_some]
          rw [List.take_succ_cons]
          simp [List.filter_cons, hput1]
    · -- first attempt fails
      have hput1f : f.put1 = false := by
        cases hf : f.put1
        · rfl
        · exact absurd hf hput1
      by_cases hput2 : f.put2 = true
      · -- retry succeeds: put, sleep, put, then the rest
        have hD := deployRun_cons_retry f rest hf0 hput1f hput2
        have hFF : firstFatalIdx (f :: rest) = (firstFatalIdx rest).map (fun k => k + 1) := by
          show (if !f.put1 && !f.put2 then some 0
                else (firstFatalIdx rest).map (fun k => k + 1)) = _
          simp [hput1f, hput2]
        rw [hD, hFF]
        cases hFFr : firstFatalIdx rest with
        | none =>
          rw [hFFr] at IH
          obtain ⟨⟨hres, hcnt⟩, hsleep⟩ := IH
          refine ⟨⟨hres, ?_⟩, ?_⟩
          · rintro ⟨iv, hi⟩
            cases iv with
            | zero =>
              show putCount (.put f.rel :: .sleep :: .put f.rel :: (deployRun rest).1)
                f.rel = if f.put1 then 1 else 2
              rw [putCount_cons_put_self, putCount_cons_sleep, putCount_cons_put_self,
                hcount0, hput1f]
              rfl
            | succ j =>
              have hj : j < rest.length := Nat.lt_of_succ_lt_succ hi
              show putCount (.put f.rel :: .sleep :: .put f.rel :: (deployRun rest).1)
                (rest.get ⟨j, hj⟩).rel = if (rest.get ⟨j, hj⟩).put1 then 1 else 2
              rw [putCount_cons_put_ne _ _ _ (hrelne ⟨j, hj⟩), putCount_cons_sleep,
                putCount_cons_put_ne _ _ _ (hrelne ⟨j, hj⟩)]
              exact hcnt ⟨j, hj⟩
          · rw [sleepCount_cons_put, sleepCount_cons_sleep, sleepCount_cons_put, hsleep]
            simp only [Option.map_none', Option.getD_none, List.length_cons]
            rw [List.take_succ_cons]
            simp [List.filter_cons, hput1f]
        | some k =>
          rw [hFFr] at IH
          obtain ⟨⟨hk, hres, hcnt2, hlow, hhigh⟩, hsleep⟩ := IH
          refine ⟨⟨Nat.succ_lt_succ hk, hres, ?_, ?_, ?_⟩, ?_⟩
          · show putCount (.put f.rel :: .sleep :: .put f.rel :: (deployRun rest).1)
              (rest.get ⟨k, hk⟩).rel = 2
            rw [putCount_cons_put_ne _ _ _ (hrelne ⟨k, hk⟩), putCount_cons_sleep,
              putCount_cons_put_ne _ _ _ (hrelne ⟨k, hk⟩)]
            exact hcnt2
          · rintro ⟨iv, hi⟩ hlt
            cases iv with
            | zero =>
              show putCount (.put f.rel :: .sleep :: .put f.rel :: (deployRun rest).1)
                f.rel = if f.put1 then 1 else 2
              rw [putCount_cons_put_self, putCount_cons_sleep, putCount_cons_put_self,
                hcount0, hput1f]
              rfl
            | succ j =>
              have hj : j < rest.length := Nat.lt_of_succ_lt_succ hi
              show putCount (.put f.rel :: .sleep :: .put f.rel :: (deployRun rest).1)
                (rest.get ⟨j, hj⟩).rel = if (rest.get ⟨j, hj⟩).put1 then 1 else 2
              rw [putCount_cons_put_ne _ _ _ (hrelne ⟨j, hj⟩), putCount_cons_sleep,
                putCount_cons_put_ne _ _ _ (hrelne ⟨j, hj⟩)]
              exact hlow ⟨j, hj⟩ (Nat.lt_of_succ_lt_succ hlt)
          · rintro ⟨iv, hi⟩ hlt
            cases iv with
            | zero => exact absurd hlt (Nat.not_lt_zero _)
            | succ j =>
              have hj : j < rest.length := Nat.lt_of_succ_lt_succ hi
              show putCount (.put f.rel :: .sleep :: .put f.rel :: (deployRun rest).1)
                (rest.get ⟨j, hj⟩).rel = 0
              rw [putCount_cons_put_ne _ _ _ (hrelne ⟨j, hj⟩), putCount_cons_sleep,
                putCount_cons_put_ne _ _ _ (hrelne ⟨j, hj⟩)]
              exact hhigh ⟨j, hj⟩ (Nat.lt_of_succ_lt_succ hlt)
          · rw [sleepCount_cons_put, sleepCount_cons_sleep, sleepCount_cons_put, hsleep]
            simp only [Option.map_some', Option.getD_some]
            rw [List.take_succ_cons]
            simp [List.filter_cons, hput1f]
      · -- both attempts fail: Deploy aborts with this file's error
        have hput2f : f.put2 = false := by
          cases hf : f.put2
          · rfl
          · exact absurd hf hput2
        have hD := deployRun_cons_fatal f rest hf0 hput1f hput2f
        have hFF : firstFatalIdx (f :: rest) = some 0 := by
          show (if !f.put1 && !f.put2 then some 0
                else (firstFatalIdx rest).map (fun k => k + 1)) = _
          simp [hput1f, hput2f]
        rw [hD, hFF]
        refine ⟨⟨Nat.succ_pos rest.length, rfl, ?_, ?_, ?_⟩, ?_⟩
        · show putCount [.put f.rel, .sleep, .put f.rel] f.rel = 2
          rw [putCount_cons_put_self, putCount_cons_sleep, putCount_cons_put_self]
          rfl
        · rintro ⟨iv, hi⟩ hlt
          exact absurd hlt (Nat.not_lt_zero _)
        · rintro ⟨iv, hi⟩ hlt
          cases iv with
          | zero => exact absurd hlt (Nat.not_lt_zero _)
          | succ j =>
            have hj : j < rest.length := Nat.lt_of_succ_lt_succ hi
            show putCount [.put f.rel, .sleep, .put f.rel] (rest.get ⟨j, hj⟩).rel = 0
            rw [putCount_cons_put_ne _ _ _ (hrelne ⟨j, hj⟩), putCount_cons_sleep,
              putCount_cons_put_ne _ _ _ (hrelne ⟨j, hj⟩)]
            rfl
        · show sleepCount [.put f.rel, .sleep, .put f.rel] =
            (((f :: rest).take (0 + 1)).filter (fun g => !g.put1)).length
          rw [sleepCount_cons_put, sleepCount_cons_sleep, sleepCount_cons_put]
          simp [List.filter_cons, hput1f, sleepCount]

/-- C8, witness: four files — first-try success, success on retry, double
failure, and a file after the failure; Deploy aborts with the third file's
error, the first three files get 1, 2 and 2 attempts, the fourth none, and
two backoff sleeps occur. -/
theorem C8_deploy_retry_policy_witness :
    (deployRun filesW8).2 = some "boom" ∧
    putCount (deployRun filesW8).1 "index.html" = 1 ∧
    putCount (deployRun filesW8).1 "a.css" = 2 ∧
    putCount (deployRun filesW8).1 "b.js" = 2 ∧
    putCount (deployRun filesW8).1 "c.png" = 0 ∧
    sleepCount (deployRun filesW8).1 = 2 := by
  have h := C8_deploy_retry_policy filesW8 (by decide) (by decide)
  rw [show firstFatalIdx filesW8 = some 2 from by decide] at h
  obtain ⟨⟨hk, hres, hcnt2, hlow, hhigh⟩, hsleep⟩ := h
  refine ⟨hres, ?_, ?_, hcnt2, ?_, ?_⟩
  · exact hlow ⟨0, by decide⟩ (by decide)
  · exact hlow ⟨1, by decide⟩ (by decide)
  · exact hhigh ⟨3, by decide⟩ (by decide)
  · rw [hsleep]
    decide
